import Mathlib

/-!
# Verification of the wordfence-cli vulnerability matching engine

Shallow embedding of `src/wordfence/intel/vulnerabilities.py`: version-range
inclusion testing (`VersionRange.includes`), the per-(type, slug) vulnerability
index (`VulnerabilityIndex`), the filter policy (`VulnerabilityFilter`) and the
stateful scan accumulator (`VulnerabilityScanner`).

Python dictionaries are modelled as insertion-ordered association lists with
distinct keys: `dlookup` is `d[k]`/`k in d`, `dinsert` is `d[k] = v`
(overwrite keeps the position of an existing key, a new key is appended at the
end), `dictUpdate` is `d.update(other)`.  A Python `KeyError` is modelled by
`Option`: functions that index into a dictionary with a possibly missing key
return `none` where the Python code would raise.

The version comparator `compare_php_versions` lives in
`wordfence/util/versioning.py`, outside the matching engine; the engine treats
it as an injected external capability, so every definition below takes the
comparator as an explicit parameter `cmp : Cmp`.
-/

set_option autoImplicit false

namespace Wordfence

/-- Comparator contract: `cmp a b` orders two version strings, returning
`-1`, `0` or `1` (the shape of `compare_php_versions`). -/
abbrev Cmp := String → String → Int

/-! ## Python dictionaries as association lists -/

/-- `d[k]` as an `Option`: first binding of `k` in the association list. -/
def dlookup {V : Type} : List (String × V) → String → Option V
  | [], _ => none
  | p :: rest, k => if p.1 = k then some p.2 else dlookup rest k

/-- `d[k] = v`: overwrite the (first) binding of `k` in place, or append a new
binding at the end — Python dict insertion-order semantics. -/
def dinsert {V : Type} : List (String × V) → String → V → List (String × V)
  | [], k, v => [(k, v)]
  | p :: rest, k, v => if p.1 = k then (k, v) :: rest else p :: dinsert rest k v

/-- `d.update(other)`: insert every binding of `other` into `d`, in order. -/
def dictUpdate {V : Type} (m other : List (String × V)) : List (String × V) :=
  other.foldl (fun acc p => dinsert acc p.1 p.2) m

/-- The key list of a dictionary. -/
def dkeys {V : Type} (m : List (String × V)) : List String := m.map Prod.fst

/-! ## VersionRange -/

/-- The wildcard version token (`VERSION_ANY = '*'`). -/
def VERSION_ANY : String := "*"

/-- `VersionRange` dataclass: an interval of versions with independently
inclusive bounds; either bound may be the wildcard `*`. -/
structure VersionRange where
  from_version : String
  from_inclusive : Bool
  to_version : String
  to_inclusive : Bool
deriving DecidableEq, Repr

/-- `VersionRange.includes` (vulnerabilities.py lines 22–33): the queried
version is in the range iff the lower-bound check and the upper-bound check
both pass.  The Python code binds `from_result`/`to_result` once each; since
`cmp` is pure the duplicated applications below denote the same values
(`includesTraced` reproduces the source's evaluation order exactly). -/
def VersionRange.includes (cmp : Cmp) (r : VersionRange) (version : String) : Bool :=
  if !(r.from_version == VERSION_ANY || cmp r.from_version version == -1 ||
      (r.from_inclusive && cmp r.from_version version == 0)) then
    false
  else if !(r.to_version == VERSION_ANY || cmp r.to_version version == 1 ||
      (r.to_inclusive && cmp r.to_version version == 0)) then
    false
  else
    true

/-- `VersionRange.includes`, instrumented: follows the source's control flow
(`from_result` computed first, early return on a failed lower bound, then
`to_result`) and additionally records, in order, the first argument of every
call made to the comparator. -/
def VersionRange.includesTraced (cmp : Cmp) (r : VersionRange) (version : String) :
    Bool × List String :=
  let from_result := cmp r.from_version version
  let calls := [r.from_version]
  if !(r.from_version == VERSION_ANY || from_result == -1 ||
      (r.from_inclusive && from_result == 0)) then
    (false, calls)
  else
    let to_result := cmp r.to_version version
    let calls := calls ++ [r.to_version]
    if !(r.to_version == VERSION_ANY || to_result == 1 ||
        (r.to_inclusive && to_result == 0)) then
      (false, calls)
    else
      (true, calls)

/-! ## Catalog entities -/

/-- `SoftwareType` enumeration (`core`, `plugin`, `theme`). -/
inductive SoftwareType where
  | CORE
  | PLUGIN
  | THEME
deriving DecidableEq, Repr

/-- `Software` dataclass: one software entry a vulnerability affects.
`affected_versions` is a dict from an opaque range key to a `VersionRange`. -/
structure Software where
  type : SoftwareType
  name : String
  slug : String
  affected_versions : List (String × VersionRange) := []
  patched : Bool := false
  patched_versions : List String := []
deriving DecidableEq, Repr

/-- `Copyright` dataclass. -/
structure Copyright where
  notice : String
  license : String
  license_url : String
deriving DecidableEq, Repr

/-- `CopyrightInformation` dataclass. -/
structure CopyrightInformation where
  message : Option String := none
  copyrights : List (String × Copyright) := []
deriving DecidableEq, Repr

/-- `Vulnerability` dataclass: a catalog entry, keyed by `identifier`. -/
structure Vulnerability where
  identifier : String
  title : String
  software : List Software := []
  informational : Bool := false
  references : List String := []
  published : Option String := none
  copyright_information : Option CopyrightInformation := none
deriving DecidableEq, Repr

/-- The core-software slug (`SLUG_WORDPRESS = 'wordpress'`). -/
def SLUG_WORDPRESS : String := "wordpress"

/-- A catalog: the dict id → `Vulnerability` handed to `VulnerabilityIndex`. -/
abbrev Catalog := List (String × Vulnerability)

/-- `ScannableSoftware` dataclass: one query target. -/
structure ScannableSoftware where
  type : SoftwareType
  slug : String
  version : String
deriving DecidableEq, Repr

/-! ## VulnerabilityIndex -/

/-- The type layer of `VulnerabilityIndex.index`: `_initialize_index` seeds an
inner dict for every `SoftwareType` before any insertion, so the outer dict is
total over the (closed) enumeration and is modelled as a function. -/
abbrev TypeIndexMap := SoftwareType → List (String × List (VersionRange × String))

/-- One iteration of the outer loop body of `_add_vulnerability_to_index`
(vulnerabilities.py lines 125–136): ensure a bucket exists for
`software.slug` under `software.type`, then append one `(range, identifier)`
pair per entry of `software.affected_versions`. -/
def addSoftwareToIndex (identifier : String) (idx : TypeIndexMap)
    (software : Software) : TypeIndexMap :=
  fun t =>
    if t = software.type then
      let type_index := idx software.type
      let software_index := (dlookup type_index software.slug).getD []
      dinsert type_index software.slug
        (software_index ++ software.affected_versions.map (fun kv => (kv.2, identifier)))
    else idx t

/-- `VulnerabilityIndex._add_vulnerability_to_index`: fold the loop body above
over the vulnerability's software entries. -/
def add_vulnerability_to_index (idx : TypeIndexMap) (vulnerability : Vulnerability) :
    TypeIndexMap :=
  vulnerability.software.foldl (addSoftwareToIndex vulnerability.identifier) idx

/-- `VulnerabilityIndex._initialize_index`: start from empty buckets for all
three types and add every catalog vulnerability in catalog (dict value)
order. -/
def initIndex (vulnerabilities : Catalog) : TypeIndexMap :=
  vulnerabilities.foldl (fun idx p => add_vulnerability_to_index idx p.2) (fun _ => [])

/-- `VulnerabilityIndex`: the catalog plus the built `(type, slug)` index. -/
structure VulnerabilityIndex where
  vulnerabilities : Catalog
  index : TypeIndexMap

/-- `VulnerabilityIndex.__init__`: store the catalog and build the index. -/
def VulnerabilityIndex.build (vulnerabilities : Catalog) : VulnerabilityIndex :=
  { vulnerabilities := vulnerabilities, index := initIndex vulnerabilities }

/-- The `for version_range, identifier in software_index:` loop of
`get_vulnerabilities` (lines 155–158): collect, into the accumulator dict,
every identifier whose range includes the queried version, resolved through
the catalog.  `self.vulnerabilities[identifier]` raises `KeyError` when the
identifier is absent from the catalog; that failure is `none`. -/
def collectMatches (catalog : Catalog) (cmp : Cmp) (version : String)
    (vulnerabilities : List (String × Vulnerability)) :
    List (VersionRange × String) → Option (List (String × Vulnerability))
  | [] => some vulnerabilities
  | p :: rest =>
      if p.1.includes cmp version then
        match dlookup catalog p.2 with
        | some vuln => collectMatches catalog cmp version (dinsert vulnerabilities p.2 vuln) rest
        | none => none
      else collectMatches catalog cmp version vulnerabilities rest

/-- `VulnerabilityIndex.get_vulnerabilities` (lines 145–159): look up the
bucket for `(software_type, slug)` (absent bucket ⇒ empty dict), scan its
`(range, identifier)` pairs and collect every matching identifier, resolved
through the catalog. -/
def VulnerabilityIndex.get_vulnerabilities (self : VulnerabilityIndex) (cmp : Cmp)
    (software_type : SoftwareType) (slug : String) (version : String) :
    Option (List (String × Vulnerability)) :=
  let type_index := self.index software_type
  match dlookup type_index slug with
  | none => some []
  | some software_index => collectMatches self.vulnerabilities cmp version [] software_index

/-- `VulnerabilityIndex.get_core_vulnerabilties` (sic, lines 161–169). -/
def VulnerabilityIndex.get_core_vulnerabilties (self : VulnerabilityIndex)
    (cmp : Cmp) (version : String) : Option (List (String × Vulnerability)) :=
  self.get_vulnerabilities cmp SoftwareType.CORE SLUG_WORDPRESS version

/-- `VulnerabilityIndex.get_plugin_vulnerabilities` (lines 171–180). -/
def VulnerabilityIndex.get_plugin_vulnerabilities (self : VulnerabilityIndex)
    (cmp : Cmp) (slug : String) (version : String) :
    Option (List (String × Vulnerability)) :=
  self.get_vulnerabilities cmp SoftwareType.PLUGIN slug version

/-- `VulnerabilityIndex.get_theme_vulnerabilities` (lines 182–191). -/
def VulnerabilityIndex.get_theme_vulnerabilities (self : VulnerabilityIndex)
    (cmp : Cmp) (slug : String) (version : String) :
    Option (List (String × Vulnerability)) :=
  self.get_vulnerabilities cmp SoftwareType.THEME slug version

/-! ## VulnerabilityFilter -/

/-- `VulnerabilityFilter`: exclusion set, inclusion set, informational gate.
The Python sets are modelled as lists; only membership and emptiness are
used. -/
structure VulnerabilityFilter where
  excluded : List String
  included : List String
  informational : Bool
deriving Repr

/-- `VulnerabilityFilter.allows` (lines 213–221): exclusion first, then the
whitelist (active only when non-empty), then the informational gate. -/
def VulnerabilityFilter.allows (self : VulnerabilityFilter)
    (vulnerability : Vulnerability) : Bool :=
  if self.excluded.contains vulnerability.identifier then
    false
  else if self.included.length != 0 &&
      !(self.included.contains vulnerability.identifier) then
    false
  else if vulnerability.informational && !self.informational then
    false
  else
    true

/-- `VulnerabilityFilter.filter` (lines 223–230): the sub-dict of entries that
`allows` accepts, order and values preserved. -/
def VulnerabilityFilter.filter (self : VulnerabilityFilter)
    (vulnerabilities : List (String × Vulnerability)) :
    List (String × Vulnerability) :=
  vulnerabilities.filter (fun p => self.allows p.2)

/-- `DEFAULT_FILTER`: empty excluded/included, informational disabled. -/
def DEFAULT_FILTER : VulnerabilityFilter :=
  { excluded := [], included := [], informational := false }

/-! ## VulnerabilityScanner -/

/-- `VulnerabilityScanner`: the bound index and filter plus the two
accumulators (`vulnerabilities`: dict id → Vulnerability; `affected`: dict
id → list of `ScannableSoftware` found vulnerable to it). -/
structure VulnerabilityScanner where
  index : VulnerabilityIndex
  filter : VulnerabilityFilter
  vulnerabilities : Catalog
  affected : List (String × List ScannableSoftware)

/-- `VulnerabilityScanner.__init__`: both accumulators start empty. -/
def newScanner (index : VulnerabilityIndex) (filter : VulnerabilityFilter) :
    VulnerabilityScanner :=
  { index := index, filter := filter, vulnerabilities := [], affected := [] }

/-- The `for identifier in vulnerabilities:` loop of `scan` (lines 260–263):
for each identifier, create its `affected` entry if missing and append the
scanned software once. -/
def recordAffected (affected : List (String × List ScannableSoftware))
    (identifiers : List String) (software : ScannableSoftware) :
    List (String × List ScannableSoftware) :=
  identifiers.foldl
    (fun acc identifier =>
      dinsert acc identifier (((dlookup acc identifier).getD []) ++ [software]))
    affected

/-- `VulnerabilityScanner.scan` (lines 252–264): query the index, apply the
bound filter, merge into `self.vulnerabilities`, append `software` to
`affected[id]` for each matched id, and return the filtered per-call dict.
Returns the updated scanner alongside the per-call result; a `KeyError`
escaping the index query propagates as `none`. -/
def VulnerabilityScanner.scan (self : VulnerabilityScanner) (cmp : Cmp)
    (software : ScannableSoftware) :
    Option (VulnerabilityScanner × List (String × Vulnerability)) :=
  match self.index.get_vulnerabilities cmp software.type software.slug software.version with
  | none => none
  | some queried =>
      let vulnerabilities := self.filter.filter queried
      some
        ({ self with
            vulnerabilities := dictUpdate self.vulnerabilities vulnerabilities,
            affected := recordAffected self.affected (dkeys vulnerabilities) software },
          vulnerabilities)

/-- `VulnerabilityScanner.get_vulnerability_count`: size of the deduped
accumulator. -/
def VulnerabilityScanner.get_vulnerability_count (self : VulnerabilityScanner) : Nat :=
  self.vulnerabilities.length

/-- `VulnerabilityScanner.get_affected_count` (lines 300–304): sum of the
lengths of all `affected` lists. -/
def VulnerabilityScanner.get_affected_count (self : VulnerabilityScanner) : Nat :=
  self.affected.foldl (fun count p => count + p.2.length) 0

/-- A sequence of `scan` calls, threading the scanner state and discarding the
per-call results (formalisation device for "for every sequence of scan
calls"). -/
def scanAll (cmp : Cmp) (self : VulnerabilityScanner) :
    List ScannableSoftware → Option VulnerabilityScanner
  | [] => some self
  | software :: rest =>
      match self.scan cmp software with
      | none => none
      | some (next, _) => scanAll cmp next rest

/-! ## Specification predicates -/

/-- `id` is matched by some `(range, id)` pair of the bucket at the queried
version. -/
def bucketHit (cmp : Cmp) (version : String)
    (bucket : List (VersionRange × String)) (id : String) : Prop :=
  ∃ r, (r, id) ∈ bucket ∧ r.includes cmp version = true

/-- Every identifier appearing in any bucket of `idx` is in `allowed`. -/
def indexIdsFrom (idx : TypeIndexMap) (allowed : List String) : Prop :=
  ∀ t slug bucket, dlookup (idx t) slug = some bucket →
    ∀ r id, (r, id) ∈ bucket → id ∈ allowed

/-- The scanner accumulator invariant: every `affected` key is a
`vulnerabilities` key, and every `affected` list is non-empty. -/
def scannerInv (st : VulnerabilityScanner) : Prop :=
  (∀ id, (dlookup st.affected id).isSome = true →
    (dlookup st.vulnerabilities id).isSome = true) ∧
  (∀ id l, dlookup st.affected id = some l → l ≠ [])

/-! ## Concrete demonstration data for witnesses -/

/-- Numeric rank of the demo version strings. -/
def verRank (s : String) : Nat :=
  if s = "0.9" then 9 else if s = "1.0" then 10 else if s = "1.2" then 12
  else if s = "1.9" then 19 else if s = "2.0" then 20 else if s = "3.0" then 30
  else 0

/-- A concrete total comparator satisfying the ordering contract on the demo
version strings. -/
def demoCmp (a b : String) : Int :=
  if verRank a < verRank b then -1 else if verRank a = verRank b then 0 else 1

/-- A comparator agreeing with `demoCmp` except on the wildcard token. -/
def demoCmpStar (a b : String) : Int :=
  if a = "*" then 7 else demoCmp a b

def demoRange : VersionRange :=
  { from_version := "1.0", from_inclusive := true,
    to_version := "2.0", to_inclusive := true }

def demoRangeAll : VersionRange :=
  { from_version := "*", from_inclusive := false,
    to_version := "*", to_inclusive := false }

def demoVuln : Vulnerability :=
  { identifier := "V1", title := "demo",
    software := [{ type := SoftwareType.PLUGIN, name := "Demo", slug := "p",
                   affected_versions := [("k", demoRange)] }] }

def demoCatalog : Catalog := [("V1", demoVuln)]

def demoFilterAB : VulnerabilityFilter :=
  { excluded := ["A"], included := ["A", "B"], informational := true }

def demoVulnA : Vulnerability := { identifier := "A", title := "a" }

/-- A vulnerability affecting two distinct plugins at every version. -/
def demoVulnX : Vulnerability :=
  { identifier := "X", title := "x",
    software :=
      [{ type := SoftwareType.PLUGIN, name := "P1", slug := "p1",
         affected_versions := [("k", demoRangeAll)] },
       { type := SoftwareType.PLUGIN, name := "P2", slug := "p2",
         affected_versions := [("k", demoRangeAll)] }] }

def demoCatalogX : Catalog := [("X", demoVulnX)]

def demoIndexX : VulnerabilityIndex := VulnerabilityIndex.build demoCatalogX

def demoScannerX0 : VulnerabilityScanner := newScanner demoIndexX DEFAULT_FILTER

def demoS1 : ScannableSoftware :=
  { type := SoftwareType.PLUGIN, slug := "p1", version := "1.0" }

def demoS2 : ScannableSoftware :=
  { type := SoftwareType.PLUGIN, slug := "p2", version := "1.0" }

/-- The scanner state after scanning `demoS1`. -/
def demoScannerX1 : VulnerabilityScanner :=
  ((demoScannerX0.scan demoCmp demoS1).map Prod.fst).getD demoScannerX0

/-- The scanner state after scanning `demoS1` then `demoS2`. -/
def demoScannerX2 : VulnerabilityScanner :=
  ((demoScannerX1.scan demoCmp demoS2).map Prod.fst).getD demoScannerX1

/-! ## Dictionary lemmas -/

/-- The instrumented and the plain embedding compute the same boolean. -/
theorem includesTraced_fst (cmp : Cmp) (r : VersionRange) (version : String) :
    (r.includesTraced cmp version).1 = r.includes cmp version := by
  unfold VersionRange.includesTraced VersionRange.includes
  cases h1 : (r.from_version == VERSION_ANY || cmp r.from_version version == -1 ||
      (r.from_inclusive && cmp r.from_version version == 0)) <;>
    cases h2 : (r.to_version == VERSION_ANY || cmp r.to_version version == 1 ||
        (r.to_inclusive && cmp r.to_version version == 0)) <;>
      simp [h1, h2]

theorem dlookup_dinsert_self {V : Type} (m : List (String × V)) (k : String) (v : V) :
    dlookup (dinsert m k v) k = some v := by
  induction m with
  | nil => simp [dinsert, dlookup]
  | cons p rest ih =>
      by_cases h : p.1 = k
      · simp [dinsert, h, dlookup]
      · simp [dinsert, h, dlookup, ih]

theorem dlookup_dinsert_ne {V : Type} (m : List (String × V)) {k k' : String}
    (h : k' ≠ k) (v : V) : dlookup (dinsert m k v) k' = dlookup m k' := by
  induction m with
  | nil => simp [dinsert, dlookup, Ne.symm h]
  | cons p rest ih =>
      by_cases hp : p.1 = k
      · subst hp
        simp [dinsert, dlookup, Ne.symm h]
      · simp [dinsert, hp, dlookup, ih]

theorem dlookup_eq_none {V : Type} (m : List (String × V)) (k : String) :
    dlookup m k = none ↔ k ∉ dkeys m := by
  induction m with
  | nil => simp [dlookup, dkeys]
  | cons p rest ih =>
      by_cases hp : p.1 = k
      · simp [dlookup, hp, dkeys]
      · simp [dlookup, hp, dkeys, ih, Ne.symm hp]

theorem dlookup_isSome {V : Type} (m : List (String × V)) (k : String) :
    (dlookup m k).isSome = true ↔ k ∈ dkeys m := by
  rw [Option.isSome_iff_ne_none, ne_eq, dlookup_eq_none, not_not]

theorem dkeys_cons {V : Type} (p : String × V) (rest : List (String × V)) :
    dkeys (p :: rest) = p.1 :: dkeys rest := rfl

theorem dkeys_dinsert {V : Type} (m : List (String × V)) (k : String) (v : V) :
    dkeys (dinsert m k v) = if k ∈ dkeys m then dkeys m else dkeys m ++ [k] := by
  induction m with
  | nil => simp [dinsert, dkeys]
  | cons p rest ih =>
      by_cases hp : p.1 = k
      · subst hp
        simp [dinsert, dkeys_cons]
      · by_cases hk : k ∈ dkeys rest
        · simp [dinsert, hp, dkeys_cons, ih, hk, Ne.symm hp]
        · simp [dinsert, hp, dkeys_cons, ih, hk, Ne.symm hp]

theorem mem_dkeys_dinsert {V : Type} (m : List (String × V)) (k a : String) (v : V) :
    a ∈ dkeys (dinsert m k v) ↔ a ∈ dkeys m ∨ a = k := by
  rw [dkeys_dinsert]
  by_cases hk : k ∈ dkeys m
  · simp only [if_pos hk]
    constructor
    · exact Or.inl
    · rintro (h | rfl)
      · exact h
      · exact hk
  · simp [if_neg hk, List.mem_append]

theorem nodup_dkeys_dinsert {V : Type} (m : List (String × V)) (k : String) (v : V)
    (h : (dkeys m).Nodup) : (dkeys (dinsert m k v)).Nodup := by
  rw [dkeys_dinsert]
  by_cases hk : k ∈ dkeys m
  · simpa [hk] using h
  · simp [hk, List.nodup_append, h]

theorem dictUpdate_cons {V : Type} (m : List (String × V)) (p : String × V)
    (rest : List (String × V)) :
    dictUpdate m (p :: rest) = dictUpdate (dinsert m p.1 p.2) rest := rfl

theorem dlookup_dictUpdate_of_none {V : Type} (m other : List (String × V))
    (k : String) (h : dlookup other k = none) :
    dlookup (dictUpdate m other) k = dlookup m k := by
  induction other generalizing m with
  | nil => rfl
  | cons p rest ih =>
      have hp : ¬ p.1 = k := by
        intro hk
        simp [dlookup, hk] at h
      have hr : dlookup rest k = none := by
        simpa [dlookup, hp] using h
      rw [dictUpdate_cons, ih _ hr, dlookup_dinsert_ne _ (fun hk => hp hk.symm)]

theorem dlookup_dictUpdate_of_some {V : Type} (m other : List (String × V))
    (k : String) (v : V) (hnd : (dkeys other).Nodup) (h : dlookup other k = some v) :
    dlookup (dictUpdate m other) k = some v := by
  induction other generalizing m with
  | nil => simp [dlookup] at h
  | cons p rest ih =>
      rw [dkeys_cons, List.nodup_cons] at hnd
      by_cases hp : p.1 = k
      · have hv : v = p.2 := by
          have := h
          simp [dlookup, hp] at this
          exact this.symm
        have hr : dlookup rest k = none := by
          rw [dlookup_eq_none]
          rw [← hp]
          exact hnd.1
        subst hv
        rw [dictUpdate_cons, dlookup_dictUpdate_of_none _ _ _ hr, ← hp,
          dlookup_dinsert_self]
      · have hr : dlookup rest k = some v := by
          simpa [dlookup, hp] using h
        rw [dictUpdate_cons]
        exact ih _ hnd.2 hr

theorem isSome_dlookup_dictUpdate {V : Type} (m other : List (String × V))
    (k : String) (hnd : (dkeys other).Nodup)
    (h : (dlookup m k).isSome = true ∨ (dlookup other k).isSome = true) :
    (dlookup (dictUpdate m other) k).isSome = true := by
  rcases ho : dlookup other k with _ | v
  · rw [dlookup_dictUpdate_of_none _ _ _ ho]
    rcases h with h | h
    · exact h
    · rw [ho] at h
      simp at h
  · rw [dlookup_dictUpdate_of_some _ _ _ _ hnd ho]
    rfl

theorem recordAffected_cons (a : List (String × List ScannableSoftware))
    (i : String) (rest : List String) (s : ScannableSoftware) :
    recordAffected a (i :: rest) s =
      recordAffected (dinsert a i (((dlookup a i).getD []) ++ [s])) rest s := rfl

theorem recordAffected_not_mem (a : List (String × List ScannableSoftware))
    (ids : List String) (s : ScannableSoftware) (id : String) (h : id ∉ ids) :
    dlookup (recordAffected a ids s) id = dlookup a id := by
  induction ids generalizing a with
  | nil => rfl
  | cons i rest ih =>
      simp [List.mem_cons] at h
      rw [recordAffected_cons, ih _ h.2, dlookup_dinsert_ne _ h.1]

theorem recordAffected_mem (a : List (String × List ScannableSoftware))
    (ids : List String) (s : ScannableSoftware) (id : String)
    (hnd : ids.Nodup) (h : id ∈ ids) :
    dlookup (recordAffected a ids s) id =
      some (((dlookup a id).getD []) ++ [s]) := by
  induction ids generalizing a with
  | nil => simp at h
  | cons i rest ih =>
      simp [List.nodup_cons] at hnd
      by_cases hi : id = i
      · subst hi
        rw [recordAffected_cons, recordAffected_not_mem _ _ _ _ hnd.1,
          dlookup_dinsert_self]
      · rcases List.mem_cons.1 h with h' | h'
        · exact absurd h' hi
        · rw [recordAffected_cons, ih _ hnd.2 h',
            dlookup_dinsert_ne _ (fun hk => hi hk)]

/-! ## Lemmas about the index query loop -/

theorem collectMatches_of_no_match (catalog : Catalog) (cmp : Cmp)
    (version : String) (bucket : List (VersionRange × String)) :
    ∀ acc, (∀ p ∈ bucket, p.1.includes cmp version = false) →
      collectMatches catalog cmp version acc bucket = some acc := by
  induction bucket with
  | nil => intro acc _; rfl
  | cons p rest ih =>
      intro acc h
      have hp : p.1.includes cmp version = false := h p (List.mem_cons_self _ _)
      simp only [collectMatches, hp, Bool.false_eq_true, if_false]
      exact ih _ (fun q hq => h q (List.mem_cons_of_mem _ hq))

theorem collectMatches_nodup (catalog : Catalog) (cmp : Cmp) (version : String)
    (bucket : List (VersionRange × String)) :
    ∀ acc m, collectMatches catalog cmp version acc bucket = some m →
      (dkeys acc).Nodup → (dkeys m).Nodup := by
  induction bucket with
  | nil =>
      intro acc m h hn
      obtain rfl : acc = m := by simpa [collectMatches] using h
      exact hn
  | cons p rest ih =>
      intro acc m h hn
      by_cases hp : p.1.includes cmp version = true
      · rcases hc : dlookup catalog p.2 with _ | vuln
        · simp [collectMatches, hp, hc] at h
        · simp only [collectMatches, hp, hc, if_true] at h
          exact ih _ _ h (nodup_dkeys_dinsert _ _ _ hn)
      · simp only [collectMatches, hp, if_false] at h
        exact ih _ _ h hn

theorem collectMatches_spec (catalog : Catalog) (cmp : Cmp) (version : String)
    (bucket : List (VersionRange × String)) :
    ∀ acc, (∀ r id, (r, id) ∈ bucket → r.includes cmp version = true →
        (dlookup catalog id).isSome = true) →
      ∃ m, collectMatches catalog cmp version acc bucket = some m ∧
        ∀ k, (bucketHit cmp version bucket k → dlookup m k = dlookup catalog k) ∧
          (¬ bucketHit cmp version bucket k → dlookup m k = dlookup acc k) := by
  induction bucket with
  | nil =>
      intro acc _
      refine ⟨acc, rfl, fun k => ⟨?_, fun _ => rfl⟩⟩
      rintro ⟨r, hr, -⟩
      simp at hr
  | cons p rest ih =>
      intro acc hs
      by_cases hp : p.1.includes cmp version = true
      · have hsome : (dlookup catalog p.2).isSome = true :=
          hs p.1 p.2 (by rw [Prod.mk.eta]; exact List.mem_cons_self _ _) hp
        rcases hi : dlookup catalog p.2 with _ | vuln
        · rw [hi] at hsome
          simp at hsome
        · obtain ⟨m, hm, hspec⟩ := ih (dinsert acc p.2 vuln)
            (fun r id hmem hinc => hs r id (List.mem_cons_of_mem _ hmem) hinc)
          refine ⟨m, by simp only [collectMatches, hp, hi, if_true]; exact hm, ?_⟩
          intro k
          constructor
          · rintro ⟨r, hr, hrinc⟩
            rcases List.mem_cons.1 hr with heq | hmem
            · by_cases hk : bucketHit cmp version rest k
              · exact (hspec k).1 hk
              · have hkp : k = p.2 := by rw [← heq]
                rw [(hspec k).2 hk, hkp, dlookup_dinsert_self, hi]
            · exact (hspec k).1 ⟨r, hmem, hrinc⟩
          · intro hnk
            have hkr : ¬ bucketHit cmp version rest k :=
              fun hh => hnk (by
                obtain ⟨r, hr, hrinc⟩ := hh
                exact ⟨r, List.mem_cons_of_mem _ hr, hrinc⟩)
            have hkp : k ≠ p.2 := by
              intro hk
              exact hnk ⟨p.1, by rw [hk, Prod.mk.eta]; exact List.mem_cons_self _ _, hp⟩
            rw [(hspec k).2 hkr, dlookup_dinsert_ne _ hkp]
      · obtain ⟨m, hm, hspec⟩ := ih acc
          (fun r id hmem hinc => hs r id (List.mem_cons_of_mem _ hmem) hinc)
        refine ⟨m, by simp only [collectMatches, hp, if_false]; exact hm, ?_⟩
        intro k
        constructor
        · rintro ⟨r, hr, hrinc⟩
          rcases List.mem_cons.1 hr with heq | hmem
          · cases heq
            exact absurd hrinc hp
          · exact (hspec k).1 ⟨r, hmem, hrinc⟩
        · intro hnk
          exact (hspec k).2 (fun hh => hnk (by
            obtain ⟨r, hr, hrinc⟩ := hh
            exact ⟨r, List.mem_cons_of_mem _ hr, hrinc⟩))

/-! ## Provenance: every identifier stored in the index names a catalog value -/

theorem indexIdsFrom_addSoftware (idx : TypeIndexMap) (allowed : List String)
    (ident : String) (s : Software) (hidx : indexIdsFrom idx allowed)
    (hid : ident ∈ allowed) :
    indexIdsFrom (addSoftwareToIndex ident idx s) allowed := by
  intro t slug bucket hb r id hm
  simp only [addSoftwareToIndex] at hb
  by_cases ht : t = s.type
  · rw [if_pos ht] at hb
    by_cases hslug : slug = s.slug
    · subst hslug
      rw [dlookup_dinsert_self] at hb
      obtain rfl := Option.some.inj hb
      rcases List.mem_append.1 hm with hold | hnew
      · rcases hlook : dlookup (idx s.type) s.slug with _ | b0
        · rw [hlook] at hold
          simp at hold
        · rw [hlook] at hold
          exact hidx s.type s.slug b0 hlook r id hold
      · obtain ⟨kv, -, hkv⟩ := List.mem_map.1 hnew
        obtain rfl : ident = id := congrArg Prod.snd hkv
        exact hid
    · rw [dlookup_dinsert_ne _ hslug] at hb
      exact hidx s.type slug bucket hb r id hm
  · rw [if_neg ht] at hb
    exact hidx t slug bucket hb r id hm

theorem indexIdsFrom_foldl_software (ident : String) (allowed : List String)
    (hid : ident ∈ allowed) :
    ∀ (l : List Software) (idx : TypeIndexMap), indexIdsFrom idx allowed →
      indexIdsFrom (l.foldl (addSoftwareToIndex ident) idx) allowed := by
  intro l
  induction l with
  | nil => exact fun idx h => h
  | cons s rest ih =>
      intro idx h
      exact ih _ (indexIdsFrom_addSoftware _ _ _ _ h hid)

theorem indexIdsFrom_initIndex (catalog : Catalog) :
    indexIdsFrom (initIndex catalog) (catalog.map (fun p => p.2.identifier)) := by
  suffices h : ∀ (l : List (String × Vulnerability)) (idx : TypeIndexMap),
      (∀ p ∈ l, p.2.identifier ∈ catalog.map (fun p => p.2.identifier)) →
      indexIdsFrom idx (catalog.map (fun p => p.2.identifier)) →
      indexIdsFrom (l.foldl (fun i p => add_vulnerability_to_index i p.2) idx)
        (catalog.map (fun p => p.2.identifier)) by
    refine h catalog _ (fun p hp => List.mem_map_of_mem _ hp) ?_
    intro t slug bucket hb
    simp [dlookup] at hb
  intro l
  induction l with
  | nil => exact fun idx _ h => h
  | cons p rest ih =>
      intro idx hmem h
      exact ih _ (fun q hq => hmem q (List.mem_cons_of_mem _ hq))
        (indexIdsFrom_foldl_software _ _ (hmem p (List.mem_cons_self _ _)) _ _ h)

/-- Master specification of `get_vulnerabilities` over a built index, for an
identifier-consistent catalog: the query succeeds, every matched identifier is
bound to its catalog record, and every unmatched identifier is absent. -/
theorem build_get_vulnerabilities_spec (catalog : Catalog) (cmp : Cmp)
    (hcons : ∀ p ∈ catalog, p.2.identifier = p.1)
    (t : SoftwareType) (slug version : String)
    (bucket : List (VersionRange × String))
    (hb : dlookup ((VulnerabilityIndex.build catalog).index t) slug = some bucket) :
    ∃ m, (VulnerabilityIndex.build catalog).get_vulnerabilities cmp t slug version
        = some m ∧
      ∀ k, (bucketHit cmp version bucket k →
              dlookup m k = dlookup catalog k ∧ (dlookup catalog k).isSome = true) ∧
        (¬ bucketHit cmp version bucket k → dlookup m k = none) := by
  have hprov := indexIdsFrom_initIndex catalog
  have hsome : ∀ id, id ∈ catalog.map (fun p => p.2.identifier) →
      (dlookup catalog id).isSome = true := by
    intro id hid
    obtain ⟨p, hp, hpe⟩ := List.mem_map.1 hid
    rw [dlookup_isSome, ← hpe, hcons p hp]
    exact List.mem_map_of_mem _ hp
  have hs : ∀ r id, (r, id) ∈ bucket → r.includes cmp version = true →
      (dlookup catalog id).isSome = true :=
    fun r id hm _ => hsome id (hprov t slug bucket hb r id hm)
  obtain ⟨m, hm, hspec⟩ := collectMatches_spec catalog cmp version bucket [] hs
  refine ⟨m, ?_, fun k => ⟨?_, fun hk => by rw [(hspec k).2 hk]; rfl⟩⟩
  · simp only [VulnerabilityIndex.get_vulnerabilities, hb]
    exact hm
  · rintro ⟨r, hmem, hinc⟩
    exact ⟨(hspec k).1 ⟨r, hmem, hinc⟩,
      hsome k (hprov t slug bucket hb r k hmem)⟩

/-! ## Scanner lemmas -/

/-- A successful query returns a dict with distinct keys. -/
theorem get_vulnerabilities_nodup (vi : VulnerabilityIndex) (cmp : Cmp)
    (t : SoftwareType) (slug version : String)
    (m : List (String × Vulnerability))
    (h : vi.get_vulnerabilities cmp t slug version = some m) :
    (dkeys m).Nodup := by
  rcases hb : dlookup (vi.index t) slug with _ | bucket
  · simp only [VulnerabilityIndex.get_vulnerabilities, hb, Option.some.injEq] at h
    subst h
    simp [dkeys]
  · simp only [VulnerabilityIndex.get_vulnerabilities, hb] at h
    exact collectMatches_nodup _ _ _ _ _ _ h (by simp [dkeys])

/-- Filtering preserves key distinctness. -/
theorem filter_dkeys_nodup (f : VulnerabilityFilter)
    (m : List (String × Vulnerability)) (h : (dkeys m).Nodup) :
    (dkeys (f.filter m)).Nodup := by
  have hs : List.Sublist (dkeys (f.filter m)) (dkeys m) :=
    (List.filter_sublist m).map Prod.fst
  exact h.sublist hs

/-- Destructuring a successful `scan` call into its field equations. -/
theorem scan_eq (cmp : Cmp) (st st' : VulnerabilityScanner)
    (s : ScannableSoftware) (m : List (String × Vulnerability))
    (h : st.scan cmp s = some (st', m)) :
    ∃ q, st.index.get_vulnerabilities cmp s.type s.slug s.version = some q ∧
      m = st.filter.filter q ∧
      st'.vulnerabilities = dictUpdate st.vulnerabilities m ∧
      st'.affected = recordAffected st.affected (dkeys m) s ∧
      st'.index = st.index ∧ st'.filter = st.filter := by
  rcases hq : st.index.get_vulnerabilities cmp s.type s.slug s.version with _ | q
  · simp [VulnerabilityScanner.scan, hq] at h
  · simp only [VulnerabilityScanner.scan, hq] at h
    rw [Option.some.injEq, Prod.mk.injEq] at h
    obtain ⟨hst, hm⟩ := h
    subst hst
    refine ⟨q, rfl, hm.symm, ?_, ?_, rfl, rfl⟩
    · show dictUpdate st.vulnerabilities (st.filter.filter q)
        = dictUpdate st.vulnerabilities m
      rw [hm]
    · show recordAffected st.affected (dkeys (st.filter.filter q)) s
        = recordAffected st.affected (dkeys m) s
      rw [hm]

/-- One `scan` call preserves the scanner accumulator invariant. -/
theorem scan_preserves_inv (cmp : Cmp) (st : VulnerabilityScanner)
    (s : ScannableSoftware) (st' : VulnerabilityScanner)
    (m : List (String × Vulnerability)) (h : st.scan cmp s = some (st', m))
    (hinv : scannerInv st) : scannerInv st' := by
  obtain ⟨q, hq, hm, hv, ha, -, -⟩ := scan_eq cmp st st' s m h
  have hnd : (dkeys m).Nodup := by
    rw [hm]
    exact filter_dkeys_nodup _ _ (get_vulnerabilities_nodup _ _ _ _ _ _ hq)
  constructor
  · intro id hid
    rw [ha] at hid
    rw [hv]
    by_cases hmem : id ∈ dkeys m
    · exact isSome_dlookup_dictUpdate _ _ _ hnd
        (Or.inr ((dlookup_isSome m id).2 hmem))
    · rw [recordAffected_not_mem _ _ _ _ hmem] at hid
      exact isSome_dlookup_dictUpdate _ _ _ hnd (Or.inl (hinv.1 id hid))
  · intro id l hl
    rw [ha] at hl
    by_cases hmem : id ∈ dkeys m
    · rw [recordAffected_mem _ _ _ _ hnd hmem] at hl
      obtain rfl := Option.some.inj hl
      simp
    · rw [recordAffected_not_mem _ _ _ _ hmem] at hl
      exact hinv.2 id l hl

/-- Any successful sequence of `scan` calls preserves the invariant. -/
theorem scanAll_inv (cmp : Cmp) : ∀ (ss : List ScannableSoftware)
    (st0 st : VulnerabilityScanner), scanAll cmp st0 ss = some st →
    scannerInv st0 → scannerInv st := by
  intro ss
  induction ss with
  | nil =>
      intro st0 st h h0
      obtain rfl := Option.some.inj h
      exact h0
  | cons s rest ih =>
      intro st0 st h h0
      rcases hs : st0.scan cmp s with _ | ⟨st1, m1⟩
      · simp [scanAll, hs] at h
      · simp only [scanAll, hs] at h
        exact ih st1 st h (scan_preserves_inv cmp st0 s st1 m1 hs h0)

/-! ## Claim theorems -/

/-- **C1.** Index completeness: over any identifier-consistent catalog, for
every `(range, id)` pair that index construction inserted under the bucket
for `(type, slug)`, querying with a version inside `range` returns a dict
binding `id` to the catalog's record for it, and querying with a version
outside every range inserted for that id in the bucket returns a dict from
which `id` is absent. -/
theorem index_completeness (catalog : Catalog) (cmp : Cmp)
    (hcons : ∀ p ∈ catalog, p.2.identifier = p.1)
    (t : SoftwareType) (slug version : String)
    (bucket : List (VersionRange × String))
    (hb : dlookup ((VulnerabilityIndex.build catalog).index t) slug = some bucket)
    (r : VersionRange) (id : String) (hmem : (r, id) ∈ bucket) :
    (r.includes cmp version = true →
      ∃ m vuln,
        (VulnerabilityIndex.build catalog).get_vulnerabilities cmp t slug version
          = some m ∧
        dlookup m id = some vuln ∧ dlookup catalog id = some vuln) ∧
    ((∀ r', (r', id) ∈ bucket → r'.includes cmp version = false) →
      ∃ m,
        (VulnerabilityIndex.build catalog).get_vulnerabilities cmp t slug version
          = some m ∧
        dlookup m id = none) := by
  obtain ⟨m, hm, hspec⟩ :=
    build_get_vulnerabilities_spec catalog cmp hcons t slug version bucket hb
  constructor
  · intro hinc
    obtain ⟨heq, hs⟩ := (hspec id).1 ⟨r, hmem, hinc⟩
    obtain ⟨vuln, hv⟩ := Option.isSome_iff_exists.1 hs
    exact ⟨m, vuln, hm, by rw [heq, hv], hv⟩
  · intro hnone
    refine ⟨m, hm, (hspec id).2 ?_⟩
    rintro ⟨r', hr', hri⟩
    rw [hnone r' hr'] at hri
    exact Bool.false_ne_true hri

/-- Witness for C1 on a concrete catalog: version `"1.9"` inside the inserted
range returns `"V1"`; version `"3.0"` outside every inserted range omits it. -/
theorem index_completeness_witness :
    (∃ m vuln,
      (VulnerabilityIndex.build demoCatalog).get_vulnerabilities demoCmp
          SoftwareType.PLUGIN "p" "1.9" = some m ∧
      dlookup m "V1" = some vuln ∧ dlookup demoCatalog "V1" = some vuln) ∧
    (∃ m,
      (VulnerabilityIndex.build demoCatalog).get_vulnerabilities demoCmp
          SoftwareType.PLUGIN "p" "3.0" = some m ∧
      dlookup m "V1" = none) :=
  ⟨(index_completeness demoCatalog demoCmp (by decide) SoftwareType.PLUGIN "p" "1.9"
      [(demoRange, "V1")] rfl demoRange "V1" (by decide)).1 (by decide),
   (index_completeness demoCatalog demoCmp (by decide) SoftwareType.PLUGIN "p" "3.0"
      [(demoRange, "V1")] rfl demoRange "V1" (by decide)).2 (by
        intro r' hr'
        obtain rfl : r' = demoRange := by simpa using hr'
        decide)⟩

/-- **C3 counterexample.** The claim says a wildcard bound short-circuits the
comparator call entirely.  It does not: with `from_version = "*"` the source
still calls the comparator on `"*"` (the calls on lines 23 and 28 are
unconditional), as the call trace records. -/
theorem wildcard_shortcircuit_cex :
    (VersionRange.includesTraced (fun _ _ => 0)
        { from_version := "*", from_inclusive := true,
          to_version := "1.0", to_inclusive := true } "1.0").2 = ["*", "1.0"] ∧
    "*" ∈ (VersionRange.includesTraced (fun _ _ => 0)
        { from_version := "*", from_inclusive := true,
          to_version := "1.0", to_inclusive := true } "1.0").2 := by
  constructor
  · rfl
  · decide

/-- **C3 amended.** The comparator is invoked even on a wildcard bound, but
its value there never influences the outcome: two comparators that agree on
every non-wildcard bound give identical `includes` results, so when a bound is
`"*"` the result is independent of the comparison of `"*"` against the
queried version. -/
theorem wildcard_comparator_irrelevant (cmp cmp' : Cmp) (r : VersionRange)
    (version : String)
    (h : ∀ a b, a ≠ VERSION_ANY → cmp a b = cmp' a b) :
    r.includes cmp version = r.includes cmp' version := by
  unfold VersionRange.includes
  by_cases hf : r.from_version = VERSION_ANY
  · by_cases ht : r.to_version = VERSION_ANY
    · simp [hf, ht]
    · rw [h r.to_version version ht]
      simp [hf]
  · rw [h r.from_version version hf]
    by_cases ht : r.to_version = VERSION_ANY
    · simp [ht]
    · rw [h r.to_version version ht]

/-- Witness for the amended C3: a comparator misbehaving on `"*"` yields the
same result as `demoCmp` on a doubly wildcarded range. -/
theorem wildcard_comparator_irrelevant_witness :
    VersionRange.includes demoCmpStar
        { from_version := "*", from_inclusive := true,
          to_version := "2.0", to_inclusive := true } "1.0" =
      VersionRange.includes demoCmp
        { from_version := "*", from_inclusive := true,
          to_version := "2.0", to_inclusive := true } "1.0" := by
  refine wildcard_comparator_irrelevant demoCmpStar demoCmp _ _ ?_
  intro a b ha
  simp only [VERSION_ANY] at ha
  simp [demoCmpStar, ha]

/-- **C4.** Boundary law: for the range `[1.0, 2.0)` under any comparator
satisfying the ordering contract on these strings, `includes` accepts `"1.0"`
and `"1.9"` and rejects `"2.0"` and `"0.9"`. -/
theorem boundary_law (cmp : Cmp)
    (h11 : cmp "1.0" "1.0" = 0) (h19 : cmp "1.0" "1.9" = -1)
    (h12 : cmp "1.0" "2.0" = -1) (h10 : cmp "1.0" "0.9" = 1)
    (h21 : cmp "2.0" "1.0" = 1) (h29 : cmp "2.0" "1.9" = 1)
    (h22 : cmp "2.0" "2.0" = 0) :
    VersionRange.includes cmp
        { from_version := "1.0", from_inclusive := true,
          to_version := "2.0", to_inclusive := false } "1.0" = true ∧
    VersionRange.includes cmp
        { from_version := "1.0", from_inclusive := true,
          to_version := "2.0", to_inclusive := false } "1.9" = true ∧
    VersionRange.includes cmp
        { from_version := "1.0", from_inclusive := true,
          to_version := "2.0", to_inclusive := false } "2.0" = false ∧
    VersionRange.includes cmp
        { from_version := "1.0", from_inclusive := true,
          to_version := "2.0", to_inclusive := false } "0.9" = false := by
  refine ⟨?_, ?_, ?_, ?_⟩ <;>
    simp [VersionRange.includes, VERSION_ANY, h11, h19, h12, h10, h21, h29, h22]

/-- Witness for C4 at the concrete comparator `demoCmp`. -/
theorem boundary_law_witness :
    demoCmp "1.0" "1.0" = 0 ∧
    VersionRange.includes demoCmp
        { from_version := "1.0", from_inclusive := true,
          to_version := "2.0", to_inclusive := false } "1.0" = true ∧
    VersionRange.includes demoCmp
        { from_version := "1.0", from_inclusive := true,
          to_version := "2.0", to_inclusive := false } "1.9" = true ∧
    VersionRange.includes demoCmp
        { from_version := "1.0", from_inclusive := true,
          to_version := "2.0", to_inclusive := false } "2.0" = false ∧
    VersionRange.includes demoCmp
        { from_version := "1.0", from_inclusive := true,
          to_version := "2.0", to_inclusive := false } "0.9" = false :=
  ⟨by decide, boundary_law demoCmp (by decide) (by decide) (by decide) (by decide)
    (by decide) (by decide) (by decide)⟩

/-- **C5.** Filter precedence: an identifier in the excluded set is always
rejected, whatever the included set and the informational flag hold. -/
theorem filter_excluded_precedence (f : VulnerabilityFilter) (v : Vulnerability)
    (h : f.excluded.contains v.identifier = true) :
    f.allows v = false := by
  unfold VulnerabilityFilter.allows
  rw [if_pos h]

/-- Witness for C5: `excluded = {"A"}`, `included = {"A", "B"}` rejects the
vulnerability with identifier `"A"` despite its inclusion. -/
theorem filter_excluded_precedence_witness :
    demoFilterAB.excluded.contains demoVulnA.identifier = true ∧
    demoFilterAB.allows demoVulnA = false :=
  ⟨by decide, filter_excluded_precedence demoFilterAB demoVulnA (by decide)⟩

/-- **C7.** Lookup miss is not an error: an absent bucket, or a bucket in
which no range includes the queried version, yields the empty dict
(`some []`) rather than a failure. -/
theorem lookup_miss_not_error (catalog : Catalog) (cmp : Cmp)
    (t : SoftwareType) (slug version : String) :
    (dlookup ((VulnerabilityIndex.build catalog).index t) slug = none →
      (VulnerabilityIndex.build catalog).get_vulnerabilities cmp t slug version
        = some []) ∧
    (∀ bucket,
      dlookup ((VulnerabilityIndex.build catalog).index t) slug = some bucket →
      (∀ p ∈ bucket, p.1.includes cmp version = false) →
      (VulnerabilityIndex.build catalog).get_vulnerabilities cmp t slug version
        = some []) := by
  constructor
  · intro h
    simp only [VulnerabilityIndex.get_vulnerabilities, h]
  · intro bucket hb hno
    simp only [VulnerabilityIndex.get_vulnerabilities, hb]
    exact collectMatches_of_no_match _ _ _ _ _ hno

/-- Witness for C7: a slug with no bucket, and a bucket whose only range
excludes the queried version, both yield `some []`. -/
theorem lookup_miss_not_error_witness :
    (VulnerabilityIndex.build demoCatalog).get_vulnerabilities demoCmp
        SoftwareType.PLUGIN "q" "1.0" = some [] ∧
    (VulnerabilityIndex.build demoCatalog).get_vulnerabilities demoCmp
        SoftwareType.PLUGIN "p" "3.0" = some [] :=
  ⟨(lookup_miss_not_error demoCatalog demoCmp SoftwareType.PLUGIN "q" "1.0").1 rfl,
   (lookup_miss_not_error demoCatalog demoCmp SoftwareType.PLUGIN "p" "3.0").2
      [(demoRange, "V1")] rfl (by decide)⟩

/-- **C8.** The convenience wrappers are pure delegation to the general
query: core at the WordPress slug, plugin and theme at the given slug. -/
theorem wrappers_delegate (vi : VulnerabilityIndex) (cmp : Cmp)
    (slug version : String) :
    vi.get_core_vulnerabilties cmp version =
        vi.get_vulnerabilities cmp SoftwareType.CORE SLUG_WORDPRESS version ∧
    vi.get_plugin_vulnerabilities cmp slug version =
        vi.get_vulnerabilities cmp SoftwareType.PLUGIN slug version ∧
    vi.get_theme_vulnerabilities cmp slug version =
        vi.get_vulnerabilities cmp SoftwareType.THEME slug version :=
  ⟨rfl, rfl, rfl⟩

/-- **C2.** Scanner accumulation: from a fresh scanner, two `scan` calls for
two distinct software values each returning exactly the dict `{"X": _}` leave
`get_vulnerability_count() = 1`, `get_affected_count() = 2`, and
`affected["X"]` the two scanned values in call order. -/
theorem scanner_accumulation (idx : VulnerabilityIndex) (f : VulnerabilityFilter)
    (cmp : Cmp) (s1 s2 : ScannableSoftware) (st1 st2 : VulnerabilityScanner)
    (w1 w2 : Vulnerability) (hne : s1 ≠ s2)
    (h1 : (newScanner idx f).scan cmp s1 = some (st1, [("X", w1)]))
    (h2 : st1.scan cmp s2 = some (st2, [("X", w2)])) :
    st2.get_vulnerability_count = 1 ∧ st2.get_affected_count = 2 ∧
    dlookup st2.affected "X" = some [s1, s2] := by
  obtain ⟨q1, hq1, hm1, hv1, ha1, -, -⟩ := scan_eq cmp (newScanner idx f) st1 s1 _ h1
  obtain ⟨q2, hq2, hm2, hv2, ha2, -, -⟩ := scan_eq cmp st1 st2 s2 _ h2
  have hv1' : st1.vulnerabilities = [("X", w1)] := hv1.trans rfl
  have ha1' : st1.affected = [("X", [s1])] := ha1.trans rfl
  have hv2' : st2.vulnerabilities = [("X", w2)] := hv2.trans (by rw [hv1']; rfl)
  have ha2' : st2.affected = [("X", [s1, s2])] := ha2.trans (by rw [ha1']; rfl)
  refine ⟨?_, ?_, ?_⟩
  · show st2.vulnerabilities.length = 1
    rw [hv2']
    rfl
  · show st2.affected.foldl (fun count p => count + p.2.length) 0 = 2
    rw [ha2']
    rfl
  · rw [ha2']
    simp [dlookup]

/-- Witness for C2: the two demo plugin scans, both matching only `"X"`. -/
theorem scanner_accumulation_witness :
    demoScannerX2.get_vulnerability_count = 1 ∧
    demoScannerX2.get_affected_count = 2 ∧
    dlookup demoScannerX2.affected "X" = some [demoS1, demoS2] :=
  scanner_accumulation demoIndexX DEFAULT_FILTER demoCmp demoS1 demoS2
    demoScannerX1 demoScannerX2 demoVulnX demoVulnX (by decide) rfl rfl

/-- **C6.** Single append per identifier per call: a `scan` call appends the
scanned software exactly once to `affected[id]` for every identifier in the
call's filtered result (even when several ranges or software entries match),
and leaves every other identifier's entry untouched. -/
theorem scan_single_append (cmp : Cmp) (st : VulnerabilityScanner)
    (s : ScannableSoftware) (st' : VulnerabilityScanner)
    (m : List (String × Vulnerability)) (h : st.scan cmp s = some (st', m)) :
    (∀ id, (dlookup m id).isSome = true →
      dlookup st'.affected id
        = some (((dlookup st.affected id).getD []) ++ [s])) ∧
    (∀ id, dlookup m id = none →
      dlookup st'.affected id = dlookup st.affected id) := by
  obtain ⟨q, hq, hm, hv, ha, -, -⟩ := scan_eq cmp st st' s m h
  have hnd : (dkeys m).Nodup := by
    rw [hm]
    exact filter_dkeys_nodup _ _ (get_vulnerabilities_nodup _ _ _ _ _ _ hq)
  constructor
  · intro id hid
    rw [ha, recordAffected_mem _ _ _ _ hnd ((dlookup_isSome m id).1 hid)]
  · intro id hid
    rw [ha, recordAffected_not_mem _ _ _ _ ((dlookup_eq_none m id).1 hid)]

/-- Witness for C6 on the first demo scan: `"X"` gains exactly one appended
entry, `"Y"` is untouched. -/
theorem scan_single_append_witness :
    dlookup demoScannerX1.affected "X"
      = some (((dlookup demoScannerX0.affected "X").getD []) ++ [demoS1]) ∧
    dlookup demoScannerX1.affected "Y" = dlookup demoScannerX0.affected "Y" :=
  ⟨(scan_single_append demoCmp demoScannerX0 demoS1 demoScannerX1
      [("X", demoVulnX)] rfl).1 "X" (by decide),
   (scan_single_append demoCmp demoScannerX0 demoS1 demoScannerX1
      [("X", demoVulnX)] rfl).2 "Y" (by decide)⟩

/-- **C9.** Scanner accumulator invariant: both accumulators start empty, and
after any successful sequence of `scan` calls from a fresh scanner, every
`affected` key is also a `vulnerabilities` key and every `affected` list is
non-empty. -/
theorem scanner_accumulator_invariant (cmp : Cmp) (idx : VulnerabilityIndex)
    (f : VulnerabilityFilter) (ss : List ScannableSoftware)
    (st : VulnerabilityScanner)
    (h : scanAll cmp (newScanner idx f) ss = some st) :
    ((newScanner idx f).vulnerabilities = [] ∧ (newScanner idx f).affected = []) ∧
    (∀ id, (dlookup st.affected id).isSome = true →
      (dlookup st.vulnerabilities id).isSome = true) ∧
    (∀ id l, dlookup st.affected id = some l → l ≠ []) := by
  have h0 : scannerInv (newScanner idx f) :=
    ⟨fun id hid => by simp [newScanner, dlookup] at hid,
     fun id l hl => by simp [newScanner, dlookup] at hl⟩
  obtain ⟨h1, h2⟩ := scanAll_inv cmp ss (newScanner idx f) st h h0
  exact ⟨⟨rfl, rfl⟩, h1, h2⟩

/-- Witness for C9 on the two demo scans. -/
theorem scanner_accumulator_invariant_witness :
    (newScanner demoIndexX DEFAULT_FILTER).vulnerabilities = [] ∧
    (dlookup demoScannerX2.vulnerabilities "X").isSome = true :=
  ⟨(scanner_accumulator_invariant demoCmp demoIndexX DEFAULT_FILTER
      [demoS1, demoS2] demoScannerX2 rfl).1.1,
   (scanner_accumulator_invariant demoCmp demoIndexX DEFAULT_FILTER
      [demoS1, demoS2] demoScannerX2 rfl).2.1 "X" (by decide)⟩

/-- **C10.** `filter` is idempotent, and its output is a sub-mapping of its
input with the values unchanged. -/
theorem filter_idempotent (f : VulnerabilityFilter)
    (m : List (String × Vulnerability)) :
    f.filter (f.filter m) = f.filter m ∧ (f.filter m).Sublist m := by
  constructor
  · simp [VulnerabilityFilter.filter, List.filter_filter]
  · exact List.filter_sublist m

end Wordfence
